import Mathlib

/-!
Verification development for the searchbot repository (a Go command-line
file-search utility).  The traversal-and-match engine lives in
pkg/search (SearchFiles, shouldSkipDirectory) and the result presenter in
pkg/display (FormatSize, truncateString, PrintResults).  Where the sources
contain two historical variants of a function, the variant embedded here is
the one the repository's own unit tests (display_test.go, search_test.go)
and the specification agree on: the FormatSize/truncateString pair with
zero, negative-size and Unicode handling, and the SearchFiles variant that
validates its pattern and root arguments before walking.

The filesystem is modelled as an explicit tree (FSNode): filepath.Walk's
visit of one entry becomes one call of walkNode, the per-entry error that
filepath.Walk hands to the callback becomes the node's accessible flag, and
the lexically-sorted readdir order becomes the order of the children list.
Strings are compared through their codepoint lists; for valid UTF-8 this
agrees with Go's byte-wise string operations, since UTF-8 is
order-preserving and self-synchronizing.
-/

/-- Model of strings.HasPrefix on codepoint lists: true when the second list
is an initial segment of the first. -/
def charsHaveStart : List Char → List Char → Bool
  | _, [] => true
  | [], _ :: _ => false
  | s :: ss, p :: ps => s == p && charsHaveStart ss ps

/-- Model of strings.Contains on codepoint lists: true when the second list
occurs contiguously inside the first. -/
def charsContain : List Char → List Char → Bool
  | [], p => p.isEmpty
  | s@(_ :: t), p => charsHaveStart s p || charsContain t p

/-- Model of strings.Contains. -/
def goStringContains (s sub : String) : Bool :=
  charsContain s.toList sub.toList

/-- Model of strings.HasPrefix. -/
def goStringHasStart (s pre : String) : Bool :=
  charsHaveStart s.toList pre.toList

/-- Model of Go's built-in string comparison s < t (lexicographic; byte-wise
in Go, codepoint-wise here, which agrees on valid UTF-8). -/
def charsLt : List Char → List Char → Bool
  | [], [] => false
  | [], _ :: _ => true
  | _ :: _, [] => false
  | a :: as, b :: bs =>
      decide (a.toNat < b.toNat) || (a.toNat == b.toNat && charsLt as bs)

/-- Model of unicode.ToLower (the full simple case folding used by
strings.ToLower), restricted to the alphabets this repository exercises:
ASCII, the Latin-1 uppercase block, and the Cyrillic uppercase blocks.
Every other codepoint is left unchanged. -/
def goCharToLower (c : Char) : Char :=
  let n := c.toNat
  if 0x41 ≤ n ∧ n ≤ 0x5A then Char.ofNat (n + 0x20)
  else if 0xC0 ≤ n ∧ n ≤ 0xDE ∧ n ≠ 0xD7 then Char.ofNat (n + 0x20)
  else if 0x410 ≤ n ∧ n ≤ 0x42F then Char.ofNat (n + 0x20)
  else if 0x400 ≤ n ∧ n ≤ 0x40F then Char.ofNat (n + 0x50)
  else c

/-- Model of strings.ToLower: the per-codepoint lowering mapped over the
whole string (a full-string case fold, not an ASCII-only one). -/
def goToLower (s : String) : String :=
  String.mk (s.toList.map goCharToLower)

/-- Model of filepath.Base on slash-separated paths: the empty path gives
".", a path of only slashes gives "/", otherwise trailing slashes are
dropped and the last component is returned. -/
def goFilepathBase (path : String) : String :=
  if path = "" then "."
  else
    let rev := path.toList.reverse.dropWhile (fun c => c == '/')
    if rev.isEmpty then "/"
    else String.mk ((rev.takeWhile (fun c => !(c == '/'))).reverse)

/-- search.SearchOptions: the per-invocation search configuration. -/
structure SearchOptions where
  Recursive : Bool
  ExactMatch : Bool
  CaseSensitive : Bool
deriving DecidableEq, Repr

/-- search.SearchResult: one match record. -/
structure SearchResult where
  Path : String
  Name : String
  Size : Int
  ModTime : String
deriving DecidableEq, Repr

/-- The two sentinel errors of pkg/search (ErrEmptyPattern, ErrInvalidPath). -/
inductive SearchError where
  | ErrEmptyPattern
  | ErrInvalidPath
deriving DecidableEq, Repr

/-- search.shouldSkipDirectory: skip when the base name is hidden (leading
dot) or is one of the literal deny-list entries. -/
def shouldSkipDirectory (path : String) : Bool :=
  let base := goFilepathBase path
  goStringHasStart base "." ||
    base == "node_modules" ||
    base == "Library" ||
    base == "System" ||
    base == "Applications"

/-- The matching rule applied by SearchFiles to one file name: lower-case
both the name and the pattern when the search is case-insensitive, then
require equality (exact match) or substring containment. -/
def nameMatches (pattern : String) (opts : SearchOptions) (fileName : String) : Bool :=
  let f := if opts.CaseSensitive then fileName else goToLower fileName
  let p := if opts.CaseSensitive then pattern else goToLower pattern
  if opts.ExactMatch then f == p else goStringContains f p

/-- Filesystem tree model.  accessible = false stands for the entry whose
lstat or readdir fails, i.e. the entry for which filepath.Walk hands the
callback a non-nil error (the callback then returns nil, skipping it). -/
inductive FSNode where
  | file (name : String) (size : Int) (modTime : String) (accessible : Bool)
  | dir (name : String) (children : List FSNode) (accessible : Bool)
deriving Repr

/-- Base name of a tree node. -/
def FSNode.name : FSNode → String
  | .file n _ _ _ => n
  | .dir n _ _ => n

/-- Accessibility flag of a tree node. -/
def FSNode.accessible : FSNode → Bool
  | .file _ _ _ ok => ok
  | .dir _ _ ok => ok

mutual

/-- The filepath.Walk callback of SearchFiles, applied to the entry at
path and, recursively, to its subtree.  Inaccessible entries contribute
nothing (the callback returns nil on a non-nil error); a directory is
entered only if it passes the recursion guard (a non-root directory is
skipped when Recursive is false) and the skip rule; a file contributes one
record when its name is not hidden and matches the pattern. -/
def walkNode (pattern root : String) (opts : SearchOptions) (path : String) :
    FSNode → List SearchResult
  | .file name size modTime ok =>
      if ok = false then []
      else if goStringHasStart name "." then []
      else if nameMatches pattern opts name then [⟨path, name, size, modTime⟩]
      else []
  | .dir _ children ok =>
      if ok = false then []
      else if path ≠ root ∧ opts.Recursive = false then []
      else if shouldSkipDirectory path then []
      else walkChildren pattern root opts path children

/-- The walk over the children of the directory at path, in readdir order;
a child named n is visited at path ++ "/" ++ n (filepath.Walk joins the
parent path with the entry name). -/
def walkChildren (pattern root : String) (opts : SearchOptions) (path : String) :
    List FSNode → List SearchResult
  | [] => []
  | c :: cs =>
      walkNode pattern root opts (path ++ "/" ++ c.name) c ++
        walkChildren pattern root opts path cs

end

/-- search.SearchFiles: validate the pattern, stat the root (rootExists
models the os.Stat outcome), then walk the tree rooted at root.  The walk
callback only ever returns nil or SkipDir, so filepath.Walk itself never
returns an error and the result list is always returned on the ok side. -/
def SearchFiles (pattern root : String) (rootExists : Bool) (tree : FSNode)
    (opts : SearchOptions) : Except SearchError (List SearchResult) :=
  if pattern = "" then .error .ErrEmptyPattern
  else if rootExists = false then .error .ErrInvalidPath
  else .ok (walkNode pattern root opts root tree)

mutual

/-- The file entries that the walk of walkNode visits and that are neither
inaccessible, nor hidden, nor inside a skipped or unentered directory,
each as the record SearchFiles would build for it.  This is the pool of
match candidates; it does not depend on the pattern. -/
def visitedFiles (root : String) (opts : SearchOptions) (path : String) :
    FSNode → List SearchResult
  | .file name size modTime ok =>
      if ok = false then []
      else if goStringHasStart name "." then []
      else [⟨path, name, size, modTime⟩]
  | .dir _ children ok =>
      if ok = false then []
      else if path ≠ root ∧ opts.Recursive = false then []
      else if shouldSkipDirectory path then []
      else visitedFilesChildren root opts path children

/-- Children part of visitedFiles. -/
def visitedFilesChildren (root : String) (opts : SearchOptions) (path : String) :
    List FSNode → List SearchResult
  | [] => []
  | c :: cs =>
      visitedFiles root opts (path ++ "/" ++ c.name) c ++
        visitedFilesChildren root opts path cs

end

/-- Join a chain of entry names below a path, the way the walk builds the
paths of nested entries. -/
def joinUnder (path : String) : List String → String
  | [] => path
  | n :: ns => joinUnder (path ++ "/" ++ n) ns

/-- What claim C2 asserts of one returned record: its name is not hidden,
and its path was built below root through a chain of directories none of
which satisfies the skip rule (or the record is the root entry itself, in
which case no directory was traversed at all). -/
def NoSkippedAncestors (root : String) (r : SearchResult) : Prop :=
  goStringHasStart r.Name "." = false ∧
    (r.Path = root ∨
      ∃ ds : List String,
        r.Path = joinUnder root (ds ++ [r.Name]) ∧
        ∀ i, i ≤ ds.length → shouldSkipDirectory (joinUnder root (List.take i ds)) = false)

/-- Two's-complement wrap of an integer into the signed 64-bit range,
used where Go's int64 arithmetic can overflow. -/
def int64Wrap (x : Int) : Int :=
  ((x + 2 ^ 63) % 2 ^ 64) - 2 ^ 63

/-- Model of Go's float64(n) for a nonnegative int64 value n: round to 53
significant bits, nearest, ties to even.  Values below 2^53 are exact;
for larger ones the shift k is at most 11 because n < 2^64. -/
def float64OfNat (n : Nat) : Nat :=
  if n < 2 ^ 53 then n
  else
    let k := ((List.range 12).filter (fun k => n / 2 ^ k < 2 ^ 53)).headD 11
    let q := n / 2 ^ k
    let r := n % 2 ^ k
    let q2 := if 2 ^ k < 2 * r ∨ (2 * r = 2 ^ k ∧ q % 2 = 1) then q + 1 else q
    q2 * 2 ^ k

/-- The unit-selection loop of FormatSize: starting from n = size / 1024,
while n >= 1024 divide n by 1024, multiply div by 1024 and bump the unit
index.  Written with explicit fuel so that it reduces in the kernel; fuel 7
covers every int64 magnitude (at most six divisions are ever taken). -/
def sizeUnitLoop : Nat → Nat → Nat → Nat → Nat × Nat
  | 0, _, div, e => (div, e)
  | fuel + 1, n, div, e =>
      if 1024 ≤ n then sizeUnitLoop fuel (n / 1024) (div * 1024) (e + 1)
      else (div, e)

/-- display.FormatSize.  Zero is special-cased; a negative size is printed
with a leading minus and Go's int64 negation (which wraps at the minimum
int64, hence int64Wrap); magnitudes below 1024 print as integer bytes;
otherwise the loop picks div = 1024^(e+1) and the unit letter, and the Go
expression float64(size)/float64(div) formatted with %.1f is modelled
exactly: the division by a power of two is lossless on the rounded
float64(size), and %.1f prints that value correctly rounded to one decimal
digit, ties to even. -/
def FormatSize (size : Int) : String :=
  if size = 0 then "0 B"
  else
    let sign := if size < 0 then "-" else ""
    let size := if size < 0 then int64Wrap (-size) else size
    if size < 1024 then sign ++ toString size ++ " B"
    else
      let n := size.toNat
      let p := sizeUnitLoop 7 (n / 1024) 1024 0
      let num := float64OfNat n * 10
      let q := num / p.1
      let r := num % p.1
      let tenths := if p.1 < 2 * r ∨ (2 * r = p.1 ∧ q % 2 = 1) then q + 1 else q
      sign ++ toString (tenths / 10) ++ "." ++ toString (tenths % 10) ++ " " ++
        String.mk ["KMGTPE".toList.getD p.2 'K'] ++ "B"

/-- display.truncateString: empty result for a nonpositive budget, the
string itself when its codepoint count fits, a run of dots for budgets up
to three, and otherwise the first maxLen - 3 codepoints followed by "...".
utf8.RuneCountInString and the []rune conversion are the codepoint list. -/
def truncateString (str : String) (maxLen : Int) : String :=
  if maxLen ≤ 0 then ""
  else if (str.toList.length : Int) ≤ maxLen then str
  else if maxLen ≤ 3 then String.mk (List.replicate maxLen.toNat '.')
  else String.mk (str.toList.take (maxLen - 3).toNat) ++ "..."

/-- Left-justified fixed-width column of fmt's %-Ns verb: pad with spaces
on the right up to N codepoints, never truncating (fmt counts runes). -/
def padRight (s : String) (w : Nat) : String :=
  s ++ String.mk (List.replicate (w - s.toList.length) ' ')

/-- The horizontal rule line: one hundred dashes, then fmt.Println's
newline. -/
def dashRule : String :=
  String.mk (List.replicate 100 '-') ++ "\n"

/-- The column header row of the table. -/
def columnHeaderRow : String :=
  padRight "NAME" 50 ++ " " ++ padRight "SIZE" 20 ++ " " ++
    padRight "MODIFIED" 15 ++ " " ++ "PATH" ++ "\n"

/-- The "Found N files" header line. -/
def foundLine (n : Nat) (s : String) : String :=
  "\nFound " ++ toString n ++ " files (Total size: " ++ s ++ ")\n"

/-- One data row of the table: name truncated to 47 codepoints in a
50-wide column, human-readable size, timestamp, then the path verbatim. -/
def formatRow (r : SearchResult) : String :=
  padRight (truncateString r.Name 47) 50 ++ " " ++
    padRight (FormatSize r.Size) 20 ++ " " ++
    padRight r.ModTime 15 ++ " " ++ r.Path ++ "\n"

/-- The total-size accumulation of PrintResults: a plain int64 sum, with
Go's wrap-around and no overflow guard. -/
def totalSize (rs : List SearchResult) : Int :=
  rs.foldl (fun acc r => int64Wrap (acc + r.Size)) 0

/-- The order sort.Slice establishes from the strict less function
results[i].Name < results[j].Name: record a precedes record b when b's
name is not strictly below a's. -/
def nameOrder (a b : SearchResult) : Prop :=
  charsLt b.Name.toList a.Name.toList = false

instance instNameOrderDecidable : DecidableRel nameOrder :=
  fun a b => inferInstanceAs (Decidable (charsLt b.Name.toList a.Name.toList = false))

/-- The contents of the results slice after the sort.Slice call inside
PrintResults.  sort.Slice's unstable pdqsort is modelled by insertion
sort; only the two facts every correct sort shares — the output is a
permutation of the input and is ordered by name — are used anywhere. -/
def sortByName (rs : List SearchResult) : List SearchResult :=
  rs.insertionSort nameOrder

/-- display.PrintResults, with the emitted text modelled as the list of
successive writes (ANSI color codes elided): either the single "No files
found" line, or the header line, a rule, the column header, a rule, one
row per record in sorted order, and a closing rule. -/
def PrintResults (results : List SearchResult) : List String :=
  if results.length = 0 then ["\nNo files found"]
  else
    foundLine (sortByName results).length (FormatSize (totalSize (sortByName results))) ::
      dashRule :: columnHeaderRow :: dashRule ::
      ((sortByName results).map formatRow ++ [dashRule])

/-- The contents of the caller's results slice after PrintResults returns:
unchanged when empty (the sort is not reached), otherwise sorted in place
by name. -/
def printResultsPost (results : List SearchResult) : List SearchResult :=
  if results.length = 0 then results else sortByName results

/-- The negated lexicographic order is transitive. -/
theorem charsLt_le_trans :
    ∀ a b c : List Char, charsLt b a = false → charsLt c b = false →
      charsLt c a = false := by
  intro a
  induction a with
  | nil =>
    intro b c _ _
    cases c with
    | nil => rfl
    | cons z cs => rfl
  | cons x as ih =>
    intro b c hb hc
    cases b with
    | nil => simp [charsLt] at hb
    | cons y bs =>
      cases c with
      | nil => simp [charsLt] at hc
      | cons z cs =>
        simp only [charsLt, Bool.or_eq_false_iff, Bool.and_eq_false_iff,
          decide_eq_false_iff_not, not_lt, beq_eq_false_iff_ne, ne_eq] at hb hc ⊢
        constructor
        · omega
        · rcases hb.2 with h1 | h1
          · left; omega
          · rcases hc.2 with h2 | h2
            · left; omega
            · right; exact ih bs cs h1 h2

/-- The lexicographic order is asymmetric. -/
theorem charsLt_asymm :
    ∀ a b : List Char, charsLt a b = true → charsLt b a = false := by
  intro a
  induction a with
  | nil =>
    intro b h
    cases b with
    | nil => simp [charsLt] at h
    | cons y bs => rfl
  | cons x as ih =>
    intro b h
    cases b with
    | nil => simp [charsLt] at h
    | cons y bs =>
      simp only [charsLt, Bool.or_eq_true, Bool.and_eq_true, decide_eq_true_eq,
        beq_iff_eq, Bool.or_eq_false_iff, Bool.and_eq_false_iff,
        decide_eq_false_iff_not, not_lt, beq_eq_false_iff_ne, ne_eq] at h ⊢
      rcases h with h | ⟨he, hr⟩
      · exact ⟨by omega, Or.inl (by omega)⟩
      · exact ⟨by omega, Or.inr (ih bs hr)⟩

instance instNameOrderTotal : IsTotal SearchResult nameOrder := by
  constructor
  intro a b
  unfold nameOrder
  rcases h : charsLt b.Name.toList a.Name.toList with _ | _
  · exact Or.inl rfl
  · exact Or.inr (charsLt_asymm _ _ h)

instance instNameOrderTrans : IsTrans SearchResult nameOrder := by
  constructor
  intro a b c hab hbc
  exact charsLt_le_trans a.Name.toList b.Name.toList c.Name.toList hab hbc

/-- The post-sort slice is a permutation of the input. -/
theorem sortByName_perm (rs : List SearchResult) : (sortByName rs).Perm rs :=
  List.perm_insertionSort nameOrder rs

/-- The post-sort slice is ordered by name. -/
theorem sortByName_sorted (rs : List SearchResult) :
    List.Sorted nameOrder (sortByName rs) :=
  List.sorted_insertionSort nameOrder rs

/-- Wrapping a wrapped summand is the same as wrapping once. -/
theorem int64Wrap_add_left (x y : Int) :
    int64Wrap (int64Wrap x + y) = int64Wrap (x + y) := by
  unfold int64Wrap
  omega

/-- The int64 total-size accumulation is invariant under permutation. -/
theorem totalSize_perm {rs rs' : List SearchResult} (h : rs.Perm rs') :
    totalSize rs = totalSize rs' := by
  unfold totalSize
  refine h.foldl_eq' ?_ 0
  intro x _ y _ z
  have h1 : int64Wrap (int64Wrap (z + x.Size) + y.Size) =
      int64Wrap (z + x.Size + y.Size) := int64Wrap_add_left _ _
  have h2 : int64Wrap (int64Wrap (z + y.Size) + x.Size) =
      int64Wrap (z + y.Size + x.Size) := int64Wrap_add_left _ _
  rw [h1, h2]
  ring_nf

mutual

/-- The records SearchFiles emits below one entry are exactly the visited,
unhidden, accessible file entries whose names satisfy the matching rule. -/
theorem walkNode_eq_filter (pattern root : String) (opts : SearchOptions) (path : String) :
    ∀ node : FSNode,
      walkNode pattern root opts path node =
        (visitedFiles root opts path node).filter
          (fun r => nameMatches pattern opts r.Name)
  | .file name size modTime ok => by
      simp only [walkNode, visitedFiles]
      by_cases h1 : ok = false
      · simp [h1]
      · by_cases h2 : goStringHasStart name "." = true
        · simp [h1, h2]
        · simp [h1, h2, List.filter_cons]
  | .dir nm children ok => by
      simp only [walkNode, visitedFiles]
      by_cases h1 : ok = false
      · simp [h1]
      · by_cases h2 : path ≠ root ∧ opts.Recursive = false
        · simp [h1, h2]
        · by_cases h3 : shouldSkipDirectory path = true
          · simp [h1, h2, h3]
          · have hrec := walkChildren_eq_filter pattern root opts path children
            simp [h1, h2, h3, hrec]

/-- Children version of walkNode_eq_filter. -/
theorem walkChildren_eq_filter (pattern root : String) (opts : SearchOptions) (path : String) :
    ∀ cs : List FSNode,
      walkChildren pattern root opts path cs =
        (visitedFilesChildren root opts path cs).filter
          (fun r => nameMatches pattern opts r.Name)
  | [] => rfl
  | c :: cs => by
      simp only [walkChildren, visitedFilesChildren, List.filter_append]
      rw [walkNode_eq_filter pattern root opts (path ++ "/" ++ c.name) c,
        walkChildren_eq_filter pattern root opts path cs]

end

mutual

/-- Every record emitted below one entry has an unhidden name, and either
is the entry itself or sits below it behind a chain of directories each of
which passed the skip rule (the chain being the successive path prefixes
the walk actually checked). -/
theorem walkNode_ancestors (pattern root : String) (opts : SearchOptions) (path : String) :
    ∀ (node : FSNode) (r : SearchResult), r ∈ walkNode pattern root opts path node →
      goStringHasStart r.Name "." = false ∧
      ((r.Path = path ∧ r.Name = node.name) ∨
        ∃ ds : List String,
          r.Path = joinUnder path (ds ++ [r.Name]) ∧
          ∀ i, i ≤ ds.length →
            shouldSkipDirectory (joinUnder path (List.take i ds)) = false)
  | .file name size modTime ok, r => by
      simp only [walkNode]
      by_cases h1 : ok = false
      · simp [h1]
      · by_cases h2 : goStringHasStart name "." = true
        · simp [h1, h2]
        · by_cases h3 : nameMatches pattern opts name = true
          · intro hr
            rw [if_neg h1, if_neg h2, if_pos h3] at hr
            have heq := List.mem_singleton.mp hr
            subst heq
            refine ⟨?_, Or.inl ⟨rfl, rfl⟩⟩
            simp only [Bool.not_eq_true] at h2
            exact h2
          · simp [h1, h2, h3]
  | .dir nm children ok, r => by
      simp only [walkNode]
      by_cases h1 : ok = false
      · simp [h1]
      · by_cases h2 : path ≠ root ∧ opts.Recursive = false
        · simp [h1, h2]
        · by_cases h3 : shouldSkipDirectory path = true
          · simp [h1, h2, h3]
          · intro hr
            rw [if_neg h1, if_neg h2, if_neg h3] at hr
            obtain ⟨hhid, ds, hpath, hchain⟩ :=
              walkChildren_ancestors pattern root opts path children r hr
            refine ⟨hhid, Or.inr ⟨ds, hpath, ?_⟩⟩
            intro i hi
            cases i with
            | zero =>
              simp only [List.take_zero, joinUnder]
              simp only [Bool.not_eq_true] at h3
              exact h3
            | succ j => exact hchain (j + 1) (by omega) hi

/-- Children version of walkNode_ancestors: every record emitted from the
children of the directory at path lies below path behind a chain of
unskipped directories. -/
theorem walkChildren_ancestors (pattern root : String) (opts : SearchOptions) (path : String) :
    ∀ (cs : List FSNode) (r : SearchResult), r ∈ walkChildren pattern root opts path cs →
      goStringHasStart r.Name "." = false ∧
      ∃ ds : List String,
        r.Path = joinUnder path (ds ++ [r.Name]) ∧
        ∀ i, 1 ≤ i → i ≤ ds.length →
          shouldSkipDirectory (joinUnder path (List.take i ds)) = false
  | [], r => by simp [walkChildren]
  | c :: cs, r => by
      simp only [walkChildren, List.mem_append]
      intro hr
      rcases hr with hr | hr
      · obtain ⟨hhid, hdisj⟩ :=
          walkNode_ancestors pattern root opts (path ++ "/" ++ c.name) c r hr
        refine ⟨hhid, ?_⟩
        rcases hdisj with ⟨hp, hn⟩ | ⟨ds, hpath, hchain⟩
        · refine ⟨[], ?_, ?_⟩
          · simpa [joinUnder, hn] using hp
          · intro i h1i h2i
            simp only [List.length_nil] at h2i
            omega
        · refine ⟨c.name :: ds, ?_, ?_⟩
          · simpa [joinUnder] using hpath
          · intro i h1i h2i
            cases i with
            | zero => omega
            | succ j =>
              simp only [List.take_succ_cons, joinUnder]
              exact hchain j (by simpa using h2i)
      · exact walkChildren_ancestors pattern root opts path cs r hr

end

/-- A path extended by a slash and a component differs from the path. -/
theorem append_component_ne (p n : String) : p ++ "/" ++ n ≠ p := by
  intro h
  have hlen := congrArg String.length h
  have h1 : ("/" : String).length = 1 := rfl
  simp only [String.length_append, h1] at hlen
  omega

/-- The only record a file entry can emit is the record for that entry. -/
theorem walkNode_file_mem (pattern root : String) (opts : SearchOptions) (path : String)
    (name : String) (size : Int) (modTime : String) (ok : Bool) (r : SearchResult)
    (hr : r ∈ walkNode pattern root opts path (.file name size modTime ok)) :
    r = ⟨path, name, size, modTime⟩ := by
  simp only [walkNode] at hr
  by_cases h1 : ok = false
  · rw [if_pos h1] at hr; simp at hr
  · rw [if_neg h1] at hr
    by_cases h2 : goStringHasStart name "." = true
    · rw [if_pos h2] at hr; simp at hr
    · rw [if_neg h2] at hr
      by_cases h3 : nameMatches pattern opts name = true
      · rw [if_pos h3] at hr; exact List.mem_singleton.mp hr
      · rw [if_neg h3] at hr; simp at hr

/-- With recursion off, every record emitted from the root's children is a
direct child of the root: subdirectories contribute nothing. -/
theorem walkChildren_nonrec (pattern root : String) (opts : SearchOptions)
    (hrec : opts.Recursive = false) :
    ∀ (cs : List FSNode) (r : SearchResult), r ∈ walkChildren pattern root opts root cs →
      r.Path = root ++ "/" ++ r.Name := by
  intro cs
  induction cs with
  | nil => intro r hr; simp [walkChildren] at hr
  | cons c cs ih =>
    intro r hr
    simp only [walkChildren, List.mem_append] at hr
    rcases hr with hr | hr
    · cases c with
      | file name size modTime ok =>
        have heq := walkNode_file_mem pattern root opts _ name size modTime ok r hr
        subst heq
        rfl
      | dir nmc chc okc =>
        exfalso
        simp only [walkNode] at hr
        cases okc with
        | false => simp at hr
        | true =>
          rw [if_neg (by simp)] at hr
          rw [if_pos ⟨append_component_ne root (FSNode.name (.dir nmc chc true)), hrec⟩] at hr
          simp at hr
    · exact ih r hr

/-- When SearchFiles returns a result list, the validations passed and the
list is the one produced by the walk from the root. -/
theorem SearchFiles_ok_eq {pattern root : String} {e : Bool} {tree : FSNode}
    {opts : SearchOptions} {rs : List SearchResult}
    (hok : SearchFiles pattern root e tree opts = .ok rs) :
    rs = walkNode pattern root opts root tree := by
  unfold SearchFiles at hok
  by_cases hp : pattern = ""
  · rw [if_pos hp] at hok; exact Except.noConfusion hok
  · rw [if_neg hp] at hok
    by_cases he : e = false
    · rw [if_pos he] at hok; exact Except.noConfusion hok
    · rw [if_neg he] at hok
      exact (Except.ok.inj hok).symm

/-- C1: for every file entry that SearchFiles visits and that is neither
hidden nor inside a skipped directory, a MatchRecord is emitted if and only
if the matching rule holds: with caseSensitive = false both the base
filename and the pattern are first lower-cased by a full-string (not
ASCII-only) case fold; with exactMatch = true the (folded) filename must
equal the (folded) pattern exactly, and otherwise it must contain the
(folded) pattern as a contiguous substring.  Stated as: the result list is
exactly the visited-candidate pool filtered by the matching rule, both for
SearchFiles and for every subtree of the walk; the concrete conjuncts
exercise the non-ASCII fold. -/
theorem c1_match_rule_iff :
    (∀ (pattern root : String) (e : Bool) (tree : FSNode) (opts : SearchOptions)
        (rs : List SearchResult), SearchFiles pattern root e tree opts = .ok rs →
        rs = (visitedFiles root opts root tree).filter
          (fun r => nameMatches pattern opts r.Name)) ∧
    (∀ (pattern root : String) (opts : SearchOptions) (path : String) (node : FSNode),
        walkNode pattern root opts path node =
          (visitedFiles root opts path node).filter
            (fun r => nameMatches pattern opts r.Name)) ∧
    goToLower "ФАЙЛ.TXT" = "файл.txt" ∧
    nameMatches "файл" ⟨true, false, false⟩ "ФАЙЛ.TXT" = true ∧
    nameMatches "файл" ⟨true, false, true⟩ "ФАЙЛ.TXT" = false := by
  refine ⟨?_, ?_, by decide, by decide, by decide⟩
  · intro pattern root e tree opts rs hok
    rw [SearchFiles_ok_eq hok]
    exact walkNode_eq_filter pattern root opts root tree
  · intro pattern root opts path node
    exact walkNode_eq_filter pattern root opts path node

/-- Witness for C1: a concrete search where exactly the matching candidate
survives the filter. -/
theorem c1_match_rule_iff_witness :
    [({ Path := "/r/a.txt", Name := "a.txt", Size := 1, ModTime := "t" } : SearchResult)] =
      (visitedFiles "/r" ⟨true, false, true⟩ "/r"
          (.dir "r" [.file "a.txt" 1 "t" true, .file "b.md" 2 "t" true] true)).filter
        (fun r => nameMatches "txt" ⟨true, false, true⟩ r.Name) :=
  c1_match_rule_iff.1 "txt" "/r" true
    (.dir "r" [.file "a.txt" 1 "t" true, .file "b.md" 2 "t" true] true)
    ⟨true, false, true⟩ [⟨"/r/a.txt", "a.txt", 1, "t"⟩] rfl

/-- C2: no returned MatchRecord has a path inside a directory whose base
name starts with a dot or is node_modules, Library, System or Applications
(the walk never descends into such a directory), and no returned record's
name starts with a dot: every record the walk produced sits behind a chain
of directories each of which failed the skip rule. -/
theorem c2_no_skipped_directories (pattern root : String) (e : Bool) (tree : FSNode)
    (opts : SearchOptions) (rs : List SearchResult)
    (hok : SearchFiles pattern root e tree opts = .ok rs)
    (r : SearchResult) (hr : r ∈ rs) :
    NoSkippedAncestors root r := by
  rw [SearchFiles_ok_eq hok] at hr
  obtain ⟨hhid, hdisj⟩ := walkNode_ancestors pattern root opts root tree r hr
  refine ⟨hhid, ?_⟩
  rcases hdisj with ⟨hp, _⟩ | ⟨ds, hpath, hchain⟩
  · exact Or.inl hp
  · exact Or.inr ⟨ds, hpath, hchain⟩

/-- Witness for C2 on a concrete tree with a hidden directory. -/
theorem c2_no_skipped_directories_witness :
    NoSkippedAncestors "/r" ⟨"/r/docs/report.pdf", "report.pdf", 3, "t"⟩ :=
  c2_no_skipped_directories "pdf" "/r" true
    (.dir "r" [.dir "docs" [.file "report.pdf" 3 "t" true] true,
               .dir ".git" [.file "config.pdf" 1 "t" true] true] true)
    ⟨true, false, true⟩
    [⟨"/r/docs/report.pdf", "report.pdf", 3, "t"⟩] rfl
    ⟨"/r/docs/report.pdf", "report.pdf", 3, "t"⟩ (by decide)

/-- C3: SearchFiles fails with ErrEmptyPattern exactly on the empty
pattern, before the root is even consulted (the statement holds for every
rootExists value and every tree), and fails with ErrInvalidPath when the
initial stat of the root fails; both checks precede the traversal. -/
theorem c3_validation_errors :
    (∀ (root : String) (e : Bool) (tree : FSNode) (opts : SearchOptions),
        SearchFiles "" root e tree opts = .error .ErrEmptyPattern) ∧
    (∀ (pattern root : String) (tree : FSNode) (opts : SearchOptions),
        pattern ≠ "" →
        SearchFiles pattern root false tree opts = .error .ErrInvalidPath) := by
  constructor
  · intro root e tree opts
    unfold SearchFiles
    rw [if_pos rfl]
  · intro pattern root tree opts hp
    unfold SearchFiles
    rw [if_neg hp, if_pos rfl]

/-- Witness for C3 at concrete arguments. -/
theorem c3_validation_errors_witness :
    SearchFiles "" "/r" true (.dir "r" [] true) ⟨true, false, true⟩ =
        .error .ErrEmptyPattern ∧
    SearchFiles "abc" "/missing" false (.dir "missing" [] true) ⟨true, false, true⟩ =
        .error .ErrInvalidPath :=
  ⟨c3_validation_errors.1 "/r" true (.dir "r" [] true) ⟨true, false, true⟩,
   c3_validation_errors.2 "abc" "/missing" (.dir "missing" [] true)
     ⟨true, false, true⟩ (by decide)⟩

/-- C4: FormatSize satisfies the boundary table — 0 gives "0 B", 1 gives
"1 B", 1024 gives "1.0 KB", 1536 gives "1.5 KB", 1024*1024 gives "1.0 MB",
-1024 gives "-1.0 KB", the maximum int64 gives "8.0 EB" — and every
negative size above the minimum int64 renders as a leading minus followed
by the rendering of its absolute value. -/
theorem c4_format_size_boundaries :
    FormatSize 0 = "0 B" ∧
    FormatSize 1 = "1 B" ∧
    FormatSize 1024 = "1.0 KB" ∧
    FormatSize 1536 = "1.5 KB" ∧
    FormatSize (1024 * 1024) = "1.0 MB" ∧
    FormatSize (-1024) = "-1.0 KB" ∧
    FormatSize 9223372036854775807 = "8.0 EB" ∧
    (∀ size : Int, -(2 ^ 63) < size → size < 0 →
        FormatSize size = "-" ++ FormatSize (-size)) := by
  refine ⟨by decide, by decide, by decide, by decide, by decide, by decide, by decide, ?_⟩
  intro size h1 h2
  have hzero : ¬(size = 0) := by omega
  have hneg0 : ¬(-size = 0) := by omega
  have hnegneg : ¬(-size < 0) := by omega
  have hw : int64Wrap (-size) = -size := by unfold int64Wrap; omega
  unfold FormatSize
  rw [if_neg hzero, if_neg hneg0]
  simp only [hw, if_pos h2, if_neg hnegneg]
  by_cases hb : -size < 1024
  · rw [if_pos hb, if_pos hb]
    apply String.ext
    simp [String.data_append]
  · rw [if_neg hb, if_neg hb]
    apply String.ext
    simp [String.data_append]

/-- Witness for C4's negative-size rule at a concrete input. -/
theorem c4_format_size_boundaries_witness :
    FormatSize (-2048) = "-" ++ FormatSize 2048 :=
  c4_format_size_boundaries.2.2.2.2.2.2.2 (-2048) (by decide) (by decide)

/-- C5: truncateString operates on codepoints, not bytes: a string whose
codepoint count fits within maxLen is returned unchanged; otherwise a
nonpositive maxLen yields the empty string, a maxLen of at most three
yields that many dots, and any larger maxLen yields the first maxLen - 3
codepoints followed by "..." — in particular the Cyrillic file name is cut
between codepoints. -/
theorem c5_truncate_codepoints :
    (∀ (s : String) (m : Int), (s.toList.length : Int) ≤ m → truncateString s m = s) ∧
    (∀ (s : String) (m : Int), m < (s.toList.length : Int) → m ≤ 0 →
        truncateString s m = "") ∧
    (∀ (s : String) (m : Int), m < (s.toList.length : Int) → 0 < m → m ≤ 3 →
        truncateString s m = String.mk (List.replicate m.toNat '.')) ∧
    (∀ (s : String) (m : Int), m < (s.toList.length : Int) → 3 < m →
        truncateString s m = String.mk (s.toList.take (m - 3).toNat) ++ "...") ∧
    truncateString "файл.txt" 5 = "фа..." := by
  refine ⟨?_, ?_, ?_, ?_, by decide⟩
  · intro s m hle
    unfold truncateString
    by_cases hm : m ≤ 0
    · rw [if_pos hm]
      have hlen : s.toList.length = 0 := by omega
      have hdata : s.data = [] := List.length_eq_zero.mp hlen
      exact String.ext (by simp [hdata] : ("" : String).data = s.data)
    · rw [if_neg hm, if_pos hle]
  · intro s m h1 h2
    unfold truncateString
    rw [if_pos h2]
  · intro s m h1 h2 h3
    unfold truncateString
    rw [if_neg (by omega : ¬(m ≤ 0)), if_neg (by omega : ¬((s.toList.length : Int) ≤ m)),
      if_pos h3]
  · intro s m h1 h2
    unfold truncateString
    rw [if_neg (by omega : ¬(m ≤ 0)), if_neg (by omega : ¬((s.toList.length : Int) ≤ m)),
      if_neg (by omega : ¬(m ≤ 3))]

/-- Witness for C5 on the spec's concrete cases. -/
theorem c5_truncate_codepoints_witness :
    truncateString "short.txt" 20 = "short.txt" ∧
    truncateString "test.txt" 0 = "" ∧
    truncateString "test.txt" 3 = String.mk (List.replicate (3 : Int).toNat '.') ∧
    truncateString "very_long_filename.txt" 10 =
      String.mk ("very_long_filename.txt".toList.take ((10 : Int) - 3).toNat) ++ "..." :=
  ⟨c5_truncate_codepoints.1 "short.txt" 20 (by decide),
   c5_truncate_codepoints.2.1 "test.txt" 0 (by decide) (by decide),
   c5_truncate_codepoints.2.2.1 "test.txt" 3 (by decide) (by decide) (by decide),
   c5_truncate_codepoints.2.2.2.1 "very_long_filename.txt" 10 (by decide) (by decide)⟩

/-- C6: every per-entry access error is swallowed silently — an
inaccessible file or directory entry contributes no records, removing an
inaccessible child from a directory leaves the records of its readable
siblings untouched, and such errors never surface as a top-level error:
with a nonempty pattern and an existing root SearchFiles always returns on
the ok side, whatever the tree contains. -/
theorem c6_per_entry_errors_swallowed :
    (∀ (pattern root : String) (opts : SearchOptions) (path name : String)
        (size : Int) (modTime : String),
        walkNode pattern root opts path (.file name size modTime false) = []) ∧
    (∀ (pattern root : String) (opts : SearchOptions) (path nm : String)
        (children : List FSNode),
        walkNode pattern root opts path (.dir nm children false) = []) ∧
    (∀ (pattern root : String) (opts : SearchOptions) (path : String)
        (c : FSNode) (cs : List FSNode), c.accessible = false →
        walkChildren pattern root opts path (c :: cs) =
          walkChildren pattern root opts path cs) ∧
    (∀ (pattern root : String) (tree : FSNode) (opts : SearchOptions),
        pattern ≠ "" →
        SearchFiles pattern root true tree opts =
          .ok (walkNode pattern root opts root tree)) := by
  refine ⟨?_, ?_, ?_, ?_⟩
  · intro pattern root opts path name size modTime
    simp [walkNode]
  · intro pattern root opts path nm children
    simp [walkNode]
  · intro pattern root opts path c cs hc
    cases c with
    | file name size modTime ok =>
      simp only [FSNode.accessible] at hc
      subst hc
      simp [walkChildren, walkNode]
    | dir nm children ok =>
      simp only [FSNode.accessible] at hc
      subst hc
      simp [walkChildren, walkNode]
  · intro pattern root tree opts hp
    unfold SearchFiles
    rw [if_neg hp]
    rfl

/-- Witness for C6: dropping an unreadable subdirectory leaves the
sibling's matches, and the search still succeeds. -/
theorem c6_per_entry_errors_swallowed_witness :
    walkChildren "txt" "/r" ⟨true, false, true⟩ "/r"
        [.dir "locked" [.file "secret.txt" 5 "t" true] false,
         .file "open.txt" 1 "t" true] =
      walkChildren "txt" "/r" ⟨true, false, true⟩ "/r"
        [.file "open.txt" 1 "t" true] ∧
    SearchFiles "txt" "/r" true
        (.dir "r" [.dir "locked" [.file "secret.txt" 5 "t" true] false,
                   .file "open.txt" 1 "t" true] true) ⟨true, false, true⟩ =
      .ok (walkNode "txt" "/r" ⟨true, false, true⟩ "/r"
        (.dir "r" [.dir "locked" [.file "secret.txt" 5 "t" true] false,
                   .file "open.txt" 1 "t" true] true)) :=
  ⟨c6_per_entry_errors_swallowed.2.2.1 "txt" "/r" ⟨true, false, true⟩ "/r"
      (.dir "locked" [.file "secret.txt" 5 "t" true] false)
      [.file "open.txt" 1 "t" true] rfl,
   c6_per_entry_errors_swallowed.2.2.2 "txt" "/r"
      (.dir "r" [.dir "locked" [.file "secret.txt" 5 "t" true] false,
                 .file "open.txt" 1 "t" true] true) ⟨true, false, true⟩ (by decide)⟩

/-- C7: with recursive = false every returned record is a direct child of
the root directory — its path is the root joined with its own name, and
subdirectories of the root contribute nothing. -/
theorem c7_nonrecursive_direct_children (pattern root : String) (e : Bool)
    (nm : String) (children : List FSNode) (ok : Bool) (opts : SearchOptions)
    (rs : List SearchResult) (hrec : opts.Recursive = false)
    (hok : SearchFiles pattern root e (.dir nm children ok) opts = .ok rs)
    (r : SearchResult) (hr : r ∈ rs) :
    r.Path = root ++ "/" ++ r.Name := by
  rw [SearchFiles_ok_eq hok] at hr
  simp only [walkNode] at hr
  by_cases h1 : ok = false
  · rw [if_pos h1] at hr; simp at hr
  · rw [if_neg h1] at hr
    rw [if_neg (fun h => h.1 rfl)] at hr
    by_cases h3 : shouldSkipDirectory root = true
    · rw [if_pos h3] at hr; simp at hr
    · rw [if_neg h3] at hr
      exact walkChildren_nonrec pattern root opts hrec children r hr

/-- Witness for C7 on a concrete non-recursive search. -/
theorem c7_nonrecursive_direct_children_witness :
    ("/r/top.txt" : String) = "/r" ++ "/" ++ "top.txt" :=
  c7_nonrecursive_direct_children "txt" "/r" true "r"
    [.file "top.txt" 1 "t" true, .dir "sub" [.file "deep.txt" 2 "t" true] true]
    true ⟨false, false, true⟩ [⟨"/r/top.txt", "top.txt", 1, "t"⟩] rfl rfl
    ⟨"/r/top.txt", "top.txt", 1, "t"⟩ (by decide)

/-- C9: when the base name of the root itself satisfies the skip rule
(hidden or deny-listed), SearchFiles returns an empty list and no error,
for every pattern, configuration and directory content: the skip rule is
applied to the root just as to every other directory. -/
theorem c9_root_skip_rule (pattern root nm : String) (children : List FSNode)
    (ok : Bool) (opts : SearchOptions) (hp : pattern ≠ "")
    (hskip : shouldSkipDirectory root = true) :
    SearchFiles pattern root true (.dir nm children ok) opts = .ok [] := by
  unfold SearchFiles
  rw [if_neg hp, if_neg (by decide : ¬(true = false))]
  simp only [walkNode]
  cases ok with
  | false => simp
  | true =>
    rw [if_neg (by decide : ¬(true = false)), if_neg (fun h => h.1 rfl), if_pos hskip]

/-- Witness for C9: a hidden root directory yields an empty, error-free
result. -/
theorem c9_root_skip_rule_witness :
    SearchFiles "txt" "/home/.cache" true
        (.dir ".cache" [.file "a.txt" 1 "t" true] true) ⟨true, false, true⟩ =
      .ok [] :=
  c9_root_skip_rule "txt" "/home/.cache" ".cache" [.file "a.txt" 1 "t" true]
    true ⟨true, false, true⟩ (by decide) (by decide)

/-- C10: PrintResults sorts its argument slice in place — afterwards the
caller-visible list is a permutation of the original (no record added,
removed or field-modified) arranged in ascending order by Name. -/
theorem c10_sort_in_place (rs : List SearchResult) :
    (printResultsPost rs).Perm rs ∧ List.Sorted nameOrder (printResultsPost rs) := by
  unfold printResultsPost
  by_cases h : rs.length = 0
  · rw [if_pos h]
    have he : rs = [] := List.length_eq_zero.mp h
    subst he
    exact ⟨List.Perm.refl _, List.sorted_nil⟩
  · rw [if_neg h]
    exact ⟨sortByName_perm rs, sortByName_sorted rs⟩

set_option maxRecDepth 8000 in
/-- C8: PrintResults on an empty list emits only the "No files found" line
and no table; on a nonempty list it emits a header "Found N files (Total
size: S)" with N the record count and S the formatted int64 sum of the
sizes, then one formatted row per record with the rows ordered by name
ascending; and on the spec's two-record example the header reports
"3.0 KB" while the rows carry "1.0 KB" and "2.0 KB". -/
theorem c8_print_results_contract :
    PrintResults [] = ["\nNo files found"] ∧
    (∀ rs : List SearchResult, rs ≠ [] →
        PrintResults rs =
          foundLine rs.length (FormatSize (totalSize rs)) :: dashRule ::
            columnHeaderRow :: dashRule ::
            ((sortByName rs).map formatRow ++ [dashRule]) ∧
        (sortByName rs).Perm rs ∧
        List.Sorted nameOrder (sortByName rs)) ∧
    (PrintResults [⟨"/a/f2", "f2", 2048, "t2"⟩, ⟨"/a/f1", "f1", 1024, "t1"⟩]).headD "" =
      "\nFound 2 files (Total size: 3.0 KB)\n" ∧
    goStringContains
        (String.join (PrintResults [⟨"/a/f2", "f2", 2048, "t2"⟩,
          ⟨"/a/f1", "f1", 1024, "t1"⟩])) "1.0 KB" = true ∧
    goStringContains
        (String.join (PrintResults [⟨"/a/f2", "f2", 2048, "t2"⟩,
          ⟨"/a/f1", "f1", 1024, "t1"⟩])) "2.0 KB" = true := by
  refine ⟨rfl, ?_, by decide, by decide, by decide⟩
  intro rs hne
  have hlen : ¬(rs.length = 0) := fun h => hne (List.length_eq_zero.mp h)
  refine ⟨?_, sortByName_perm rs, sortByName_sorted rs⟩
  unfold PrintResults
  rw [if_neg hlen, (sortByName_perm rs).length_eq, totalSize_perm (sortByName_perm rs)]

/-- Witness for C8's nonempty branch at a one-record list. -/
theorem c8_print_results_contract_witness :
    (sortByName [(⟨"/p", "n.txt", 10, "t"⟩ : SearchResult)]).Perm
        [(⟨"/p", "n.txt", 10, "t"⟩ : SearchResult)] ∧
      List.Sorted nameOrder (sortByName [(⟨"/p", "n.txt", 10, "t"⟩ : SearchResult)]) :=
  (c8_print_results_contract.2.1 [⟨"/p", "n.txt", 10, "t"⟩] (by simp)).2
